import Mathlib

/-!
Verification of the loop-sampler WAV-to-header converter
(`src/loop-sampler/wav-to-header.py`, function `convert_wavs_to_header`).

Modelling choices:
* Amplitude samples are modelled as exact rationals (ℚ), idealizing the
  script's floating-point arithmetic; all concrete inputs used below are
  dyadic values on which float32 arithmetic is exact.
* `wavfile.read` either succeeds with decoded audio data or raises; a
  `WavFile` carries `content : Option AudioData`, where `none` models a
  decode failure (the sample rate returned by `wavfile.read` is unused by
  the script and is omitted).
* numpy's `.astype(np.int16)` truncates the float toward zero and then
  reduces into the int16 range by two's-complement wrap-around (the
  behaviour of the C cast on the reference platform); this is modelled by
  `truncToInt` followed by `int16_cast`.
* The script writes the generated text to a temporary file and returns its
  path; the model returns the generated text itself.
-/

/-- Decoded audio data: either a mono frame list, or a two-channel
(stereo) frame list, mirroring the `data.ndim == 2` distinction. -/
inductive AudioData where
  | mono (frames : List ℚ)
  | stereo (frames : List (ℚ × ℚ))
deriving DecidableEq

/-- One uploaded file: its name and its decode result (`none` models
`wavfile.read` raising on an unreadable input). -/
structure WavFile where
  name : String
  content : Option AudioData
deriving DecidableEq

/-- `if data.ndim == 2: data = data.mean(axis=1)` — collapse stereo to
mono by the per-frame arithmetic mean of the two channels. -/
def collapseMono : AudioData → List ℚ
  | .mono frames => frames
  | .stereo frames => frames.map (fun p => (p.1 + p.2) / 2)

/-- `peak = np.max(np.abs(data))` (with `0` for an empty frame list). -/
def peakOf (data : List ℚ) : ℚ := (data.map (fun x => |x|)).foldr max 0

/-- `if peak > 0: data /= peak` — peak normalization, skipped on silence. -/
def normalizeData (data : List ℚ) : List ℚ :=
  if 0 < peakOf data then data.map (fun x => x / peakOf data) else data

/-- Truncation toward zero, the rounding performed by `.astype(np.int16)`
on the float value. -/
def truncToInt (q : ℚ) : ℤ := if q < 0 then ⌈q⌉ else ⌊q⌋

/-- Two's-complement reduction into the int16 range `[-32768, 32767]`,
the wrap-around performed by `.astype(np.int16)` on out-of-range values. -/
def int16_cast (z : ℤ) : ℤ := (z + 32768) % 65536 - 32768

/-- `np.clip(·, 0, 32767)`. -/
def clip (z : ℤ) : ℤ := min (max z 0) 32767

/-- One sample of
`np.clip(((data + 1) / 2 * (pwm_resolution - 1)).astype(np.int16), 0, 32767)`:
affine map, truncate, int16 cast (wrap), then clip. -/
def quantizeSample (pwm_resolution : ℤ) (s : ℚ) : ℤ :=
  clip (int16_cast (truncToInt ((s + 1) / 2 * ((pwm_resolution : ℚ) - 1))))

/-- The whole per-file numeric pipeline: collapse to mono, peak-normalize,
quantize each sample (`scaled` in the script). -/
def quantizeData (pwm_resolution : ℤ) (d : AudioData) : List ℤ :=
  (normalizeData (collapseMono d)).map (quantizeSample pwm_resolution)

/-- `os.path.basename`: the part of the path after the last separator. -/
def basename (s : String) : String :=
  String.mk ((s.toList.reverse.takeWhile (fun c => c ≠ '/')).reverse)

/-- The stem of `os.path.splitext`: drop the last dot-led suffix, unless
every character before the last dot is itself a dot. -/
def split_ext_stem (b : String) : String :=
  let cs := b.toList
  let lead := (cs.takeWhile (fun c => c = '.')).length
  if (cs.drop lead).contains '.' then
    String.mk (cs.take (cs.length - (cs.reverse.takeWhile (fun c => c ≠ '.')).length - 1))
  else b

/-- `os.path.splitext(os.path.basename(file.name))[0].replace(" ", "_")`
(for the single-character pattern, `str.replace` is a per-character map). -/
def array_name_of (fname : String) : String :=
  String.mk ((split_ext_stem (basename fname)).toList.map
    (fun c => if c = ' ' then '_' else c))

/-- Fuel-driven chunking; with fuel ≥ length this yields the slices
`scaled[i:i+10] for i in range(0, len(scaled), 10)`. -/
def chunksGo : Nat → List ℤ → List (List ℤ)
  | 0, _ => []
  | _ + 1, [] => []
  | fuel + 1, x :: xs => (x :: xs).take 10 :: chunksGo fuel ((x :: xs).drop 10)

/-- The slices `scaled[i:i+10] for i in range(0, len(scaled), 10)`. -/
def chunks10 (l : List ℤ) : List (List ℤ) := chunksGo l.length l

/-- The data array literal for one file: header line, the 10-value chunk
lines (each chunk comma-space-joined), and the closing line, joined by
newlines. -/
def array_block (array_name : String) (scaled : List ℤ) : String :=
  String.intercalate "\n"
    (("const int16_t " ++ array_name ++ "[] PROGMEM = \x7b")
      :: ((chunks10 scaled).map (fun c => String.intercalate ", " (c.map toString))
        ++ ["\x7d;\n"]))

/-- One manifest entry: `{index, data reference/name, size}`. -/
structure ManifestEntry where
  index : Nat
  array_name : String
  size : Nat
deriving DecidableEq

/-- The manifest line
`f'    {{ {sample_index}, &{array_name}[0], {len(scaled)}, "{array_name}" }},'`. -/
def sample_definition (e : ManifestEntry) : String :=
  "    \x7b " ++ toString e.index ++ ", &" ++ e.array_name ++ "[0], "
    ++ toString e.size ++ ", \"" ++ e.array_name ++ "\" \x7d,"

/-- `f"#define NUM_SAMPLES {len(files)}\n\n"`. -/
def num_samples_line (n : Nat) : String :=
  "#define NUM_SAMPLES " ++ toString n ++ "\n\n"

/-- The fixed `struct SampleData` text appended to `header_lines`. -/
def struct_block : String :=
  "struct SampleData \x7b\n    const uint16_t index;\n    const int16_t* data;\n    const uint32_t size;\n    const char* name;\n\x7d;\n\n"

/-- The per-file loop: decode each file (aborting the whole batch on the
first failure), quantize, and collect the manifest entry and data array
block, with `sample_index` starting at 0 and incremented per file. -/
def process_files (pwm_resolution : ℤ) : List WavFile → Nat → Except String (List (ManifestEntry × String))
  | [], _ => .ok []
  | file :: rest, sample_index =>
    match file.content with
    | none => .error file.name
    | some d =>
      match process_files pwm_resolution rest (sample_index + 1) with
      | .error e => .error e
      | .ok results =>
        .ok ((⟨sample_index, array_name_of file.name, (quantizeData pwm_resolution d).length⟩,
              array_block (array_name_of file.name) (quantizeData pwm_resolution d)) :: results)

/-- `convert_wavs_to_header(files, pwm_resolution)`: the full conversion,
returning the generated header text (or the decode error). -/
def convert_wavs_to_header (files : List WavFile) (pwm_resolution : ℤ) : Except String String :=
  match process_files pwm_resolution files 0 with
  | .error e => .error e
  | .ok results =>
    let sample_def_block :=
      "SampleData sample[NUM_SAMPLES] = \x7b\n"
        ++ String.intercalate "\n" (results.map (fun r => sample_definition r.1))
        ++ "\n\x7d;\n\n"
    .ok (num_samples_line files.length
      ++ (struct_block
        ++ (sample_def_block
          ++ String.intercalate "\n" (results.map (fun r => r.2)))))

/-! ### Helper lemmas -/

lemma truncToInt_intCast (z : ℤ) : truncToInt (z : ℚ) = z := by
  unfold truncToInt
  split
  · exact Int.ceil_intCast z
  · exact Int.floor_intCast z

lemma truncToInt_of_nonneg {q : ℚ} (h : 0 ≤ q) : truncToInt q = ⌊q⌋ := by
  unfold truncToInt
  rw [if_neg (not_lt.mpr h)]

lemma int16_cast_eq_self {z : ℤ} (h0 : -32768 ≤ z) (h1 : z ≤ 32767) :
    int16_cast z = z := by
  unfold int16_cast
  rw [Int.emod_eq_of_lt (by omega) (by omega)]
  omega

lemma clip_nonneg (z : ℤ) : 0 ≤ clip z :=
  le_min (le_max_right z 0) (by norm_num)

lemma clip_le_32767 (z : ℤ) : clip z ≤ 32767 := min_le_right _ _

lemma clip_eq_self {z : ℤ} (h0 : 0 ≤ z) (h1 : z ≤ 32767) : clip z = z := by
  unfold clip
  rw [max_eq_left h0, min_eq_left h1]

lemma abs_mem_le_peakOf {x : ℚ} {l : List ℚ} (h : x ∈ l) : |x| ≤ peakOf l := by
  induction l with
  | nil => cases h
  | cons a t ih =>
    have hpk : peakOf (a :: t) = max |a| (peakOf t) := rfl
    rw [hpk]
    rcases List.mem_cons.mp h with rfl | hm
    · exact le_max_left _ _
    · exact le_trans (ih hm) (le_max_right _ _)

lemma mem_normalizeData_abs_le_one {x : ℚ} {l : List ℚ}
    (h : x ∈ normalizeData l) : |x| ≤ 1 := by
  unfold normalizeData at h
  split at h
  · next hp =>
    obtain ⟨y, hy, rfl⟩ := List.mem_map.mp h
    rw [abs_div, abs_of_pos hp]
    exact (div_le_one hp).mpr (abs_mem_le_peakOf hy)
  · next hp =>
    have h0 : peakOf l ≤ 0 := not_lt.mp hp
    have h1 := abs_mem_le_peakOf h
    have h2 : (0 : ℚ) ≤ |x| := abs_nonneg x
    linarith

lemma normalizeData_length (l : List ℚ) : (normalizeData l).length = l.length := by
  unfold normalizeData
  split <;> simp

lemma quantizeData_length (pwm_resolution : ℤ) (d : AudioData) :
    (quantizeData pwm_resolution d).length = (collapseMono d).length := by
  unfold quantizeData
  rw [List.length_map, normalizeData_length]

lemma peakOf_eq_zero {l : List ℚ} (h : ∀ x ∈ l, x = 0) : peakOf l = 0 := by
  induction l with
  | nil => rfl
  | cons a t ih =>
    have hpk : peakOf (a :: t) = max |a| (peakOf t) := rfl
    rw [hpk, h a (List.mem_cons_self a t), ih fun x hx => h x (List.mem_cons_of_mem a hx)]
    simp

lemma quantizeSample_bounds {pwm_resolution : ℤ}
    (h1 : 1 ≤ pwm_resolution) (h2 : pwm_resolution ≤ 32768)
    {s : ℚ} (hs : |s| ≤ 1) :
    0 ≤ quantizeSample pwm_resolution s ∧
      quantizeSample pwm_resolution s ≤ pwm_resolution - 1 := by
  obtain ⟨hs1, hs2⟩ := abs_le.mp hs
  have hres : (1 : ℚ) ≤ (pwm_resolution : ℚ) := by exact_mod_cast h1
  set q : ℚ := (s + 1) / 2 * ((pwm_resolution : ℚ) - 1) with hq
  have hq0 : 0 ≤ q := by
    apply mul_nonneg
    · apply div_nonneg (by linarith) (by norm_num)
    · linarith
  have hhalf : (s + 1) / 2 ≤ 1 := by
    rw [div_le_one (by norm_num : (0:ℚ) < 2)]
    linarith
  have hqle : q ≤ (pwm_resolution : ℚ) - 1 := by
    calc q ≤ 1 * ((pwm_resolution : ℚ) - 1) :=
          mul_le_mul_of_nonneg_right hhalf (by linarith)
      _ = (pwm_resolution : ℚ) - 1 := one_mul _
  have hfl0 : 0 ≤ ⌊q⌋ := Int.le_floor.mpr (by exact_mod_cast hq0)
  have hfl1 : ⌊q⌋ ≤ pwm_resolution - 1 := by
    have hcast : ((pwm_resolution : ℚ) - 1) = ((pwm_resolution - 1 : ℤ) : ℚ) := by
      push_cast
      ring
    have hmono : ⌊q⌋ ≤ ⌊((pwm_resolution - 1 : ℤ) : ℚ)⌋ :=
      Int.floor_le_floor (by rw [← hcast]; exact hqle)
    rwa [Int.floor_intCast] at hmono
  unfold quantizeSample
  rw [← hq, truncToInt_of_nonneg hq0,
    int16_cast_eq_self (by omega) (by omega),
    clip_eq_self (by omega) (by omega)]
  omega

lemma quantizeSample_zero {pwm_resolution : ℤ}
    (h1 : 1 ≤ pwm_resolution) (h2 : pwm_resolution ≤ 65536) :
    quantizeSample pwm_resolution 0 =
      ⌊((0 : ℚ) + 1) / 2 * ((pwm_resolution : ℚ) - 1)⌋ := by
  have hres : (1 : ℚ) ≤ (pwm_resolution : ℚ) := by exact_mod_cast h1
  have hres' : (pwm_resolution : ℚ) ≤ 65536 := by exact_mod_cast h2
  set q : ℚ := ((0 : ℚ) + 1) / 2 * ((pwm_resolution : ℚ) - 1) with hq
  have hqhalf : q = ((pwm_resolution : ℚ) - 1) / 2 := by
    rw [hq]
    ring
  have hq0 : 0 ≤ q := by
    rw [hqhalf]
    apply div_nonneg (by linarith) (by norm_num)
  have hfl0 : 0 ≤ ⌊q⌋ := Int.le_floor.mpr (by exact_mod_cast hq0)
  have hfl1 : ⌊q⌋ ≤ 32767 := by
    have hfl : (⌊q⌋ : ℚ) ≤ q := Int.floor_le q
    have hfl2 : (⌊q⌋ : ℚ) ≤ ((pwm_resolution : ℚ) - 1) / 2 := hqhalf ▸ hfl
    have h2q : (2 * ⌊q⌋ : ℚ) ≤ (pwm_resolution : ℚ) - 1 := by linarith
    have h2z : (2 * ⌊q⌋ : ℤ) ≤ pwm_resolution - 1 := by exact_mod_cast h2q
    omega
  unfold quantizeSample
  rw [← hq, truncToInt_of_nonneg hq0,
    int16_cast_eq_self (by omega) (by omega),
    clip_eq_self (by omega) (by omega)]

lemma process_files_nil (pwm_resolution : ℤ) (k : Nat) :
    process_files pwm_resolution [] k = .ok [] := rfl

lemma process_files_cons (pwm_resolution : ℤ) (f : WavFile) (fs : List WavFile) (k : Nat) :
    process_files pwm_resolution (f :: fs) k =
      match f.content with
      | none => .error f.name
      | some d =>
        match process_files pwm_resolution fs (k + 1) with
        | .error e => .error e
        | .ok results =>
          .ok ((⟨k, array_name_of f.name, (quantizeData pwm_resolution d).length⟩,
                array_block (array_name_of f.name) (quantizeData pwm_resolution d)) :: results) := rfl

lemma process_files_ok_spec (pwm_resolution : ℤ) :
    ∀ (files : List WavFile) (k : Nat) (results : List (ManifestEntry × String)),
      process_files pwm_resolution files k = .ok results →
      results.length = files.length ∧
      results.map (fun r => r.1.index) = List.range' k files.length ∧
      ∀ i (hf : i < files.length) (hr : i < results.length),
        ∃ d, (files.get ⟨i, hf⟩).content = some d ∧
          (results.get ⟨i, hr⟩).1.size = (collapseMono d).length := by
  intro files
  induction files with
  | nil =>
    intro k results h
    rw [process_files_nil] at h
    injection h with h'
    subst h'
    exact ⟨rfl, rfl, fun i hf _ => absurd hf (Nat.not_lt_zero i)⟩
  | cons f fs ih =>
    intro k results h
    rw [process_files_cons] at h
    split at h
    · exact absurd h (by simp)
    · split at h
      · exact absurd h (by simp)
      · rename_i xo d hcontent xe rest hrec
        injection h with h'
        subst h'
        obtain ⟨hlen, hidx, hsz⟩ := ih (k + 1) rest hrec
        refine ⟨by simp [hlen], ?_, ?_⟩
        · simp only [List.map_cons, List.length_cons, List.range'_succ]
          rw [hidx]
        · intro i hf hr
          cases i with
          | zero => exact ⟨d, hcontent, by simp [quantizeData_length]⟩
          | succ j =>
            obtain ⟨d', hd', hs'⟩ :=
              hsz j (Nat.lt_of_succ_lt_succ hf) (Nat.lt_of_succ_lt_succ hr)
            exact ⟨d', hd', hs'⟩

lemma process_files_error (pwm_resolution : ℤ) :
    ∀ (files : List WavFile), (∃ f ∈ files, f.content = none) →
      ∀ k, ∃ e, process_files pwm_resolution files k = .error e := by
  intro files
  induction files with
  | nil =>
    rintro ⟨f, hf, _⟩
    cases hf
  | cons a t ih =>
    rintro ⟨f, hf, hnone⟩ k
    cases hc : a.content with
    | none => exact ⟨a.name, by rw [process_files_cons, hc]⟩
    | some d =>
      rcases List.mem_cons.mp hf with rfl | hm
      · rw [hc] at hnone
        cases hnone
      · obtain ⟨e, he⟩ := ih ⟨f, hm, hnone⟩ (k + 1)
        exact ⟨e, by rw [process_files_cons, hc, he]⟩

/-! ### Claim theorems -/

/-- Claim C1, counterexample: at resolution 65536 a peak-normalized
full-scale sample does not quantize to `min(resolution - 1, 32767) = 32767`:
the int16 cast wraps 65535 to -1 before the clip, and the clip then yields 0.
This refutes the claim's "truncate, then clip" two-stage description for
resolutions above 32768. -/
theorem C1_counterexample :
    quantizeData 65536 (AudioData.mono [1]) = [0] ∧
      (0 : ℤ) ≠ min ((65536 : ℤ) - 1) 32767 :=
  ⟨by with_unfolding_all decide, by decide⟩

/-- Claim C1, amended: the conversion is affine map, truncation, int16 cast
(with two's-complement wrap-around), then clip to [0, 32767]; for every
resolution in [1, 32768] the cast does not wrap, and a peak-normalized
full-scale sample quantizes to `resolution - 1 = min(resolution - 1, 32767)`. -/
theorem C1_fullscale_amended (pwm_resolution : ℤ)
    (h1 : 1 ≤ pwm_resolution) (h2 : pwm_resolution ≤ 32768) :
    quantizeData pwm_resolution (AudioData.mono [1]) =
        [min (pwm_resolution - 1) 32767] ∧
      quantizeSample pwm_resolution 1 = min (pwm_resolution - 1) 32767 := by
  have hsample : quantizeSample pwm_resolution 1 = pwm_resolution - 1 := by
    have hcast : ((1 : ℚ) + 1) / 2 * ((pwm_resolution : ℚ) - 1) =
        ((pwm_resolution - 1 : ℤ) : ℚ) := by
      push_cast
      ring
    unfold quantizeSample
    rw [hcast, truncToInt_intCast,
      int16_cast_eq_self (by omega) (by omega),
      clip_eq_self (by omega) (by omega)]
  have hmin : min (pwm_resolution - 1) 32767 = pwm_resolution - 1 :=
    min_eq_left (by omega)
  constructor
  · have hnorm : normalizeData [(1 : ℚ)] = [1] := by
      have hp : peakOf [(1 : ℚ)] = 1 := by norm_num [peakOf]
      unfold normalizeData
      rw [hp]
      norm_num
    have hcoll : collapseMono (AudioData.mono [1]) = [1] := rfl
    unfold quantizeData
    rw [hcoll, hnorm]
    simp only [List.map_cons, List.map_nil]
    rw [hsample, hmin]
  · rw [hsample, hmin]

/-- Witness for C1 at resolution 4096. -/
theorem C1_witness :
    quantizeData 4096 (AudioData.mono [1]) = [min ((4096 : ℤ) - 1) 32767] ∧
      quantizeSample 4096 1 = min ((4096 : ℤ) - 1) 32767 :=
  C1_fullscale_amended 4096 (by decide) (by decide)

set_option maxRecDepth 20000 in
/-- Claim C2, code evaluated at the failing input: an 11-frame silent file at
resolution 4096 quantizes to eleven 2047s; the emitted array literal wraps at
10 values per line, but the 10th value of the first line is followed by a bare
newline — there is no comma between the 10th and the 11th value, unlike the
format the spec requires bit-for-bit (third conjunct: the emitted text differs
from the comma-before-newline form). -/
theorem C2_missing_comma_at_wrap :
    quantizeData 4096 (AudioData.mono (List.replicate 11 0)) =
        List.replicate 11 2047 ∧
      array_block "wav" (List.replicate 11 2047) =
        "const int16_t wav[] PROGMEM = \x7b\n2047, 2047, 2047, 2047, 2047, 2047, 2047, 2047, 2047, 2047\n2047\n\x7d;\n" ∧
      array_block "wav" (List.replicate 11 2047) ≠
        "const int16_t wav[] PROGMEM = \x7b\n2047, 2047, 2047, 2047, 2047, 2047, 2047, 2047, 2047, 2047,\n2047\n\x7d;\n" := by
  with_unfolding_all decide

/-- Claim C3: every quantized output value lies in [0, 32767], for every
resolution (no precondition) and every input, because `np.clip(·, 0, 32767)`
is the last stage of the conversion. -/
theorem C3_hard_ceiling (pwm_resolution : ℤ) (d : AudioData) (v : ℤ)
    (h : v ∈ quantizeData pwm_resolution d) : 0 ≤ v ∧ v ≤ 32767 := by
  unfold quantizeData at h
  obtain ⟨s, _, rfl⟩ := List.mem_map.mp h
  unfold quantizeSample
  exact ⟨clip_nonneg _, clip_le_32767 _⟩

/-- Witness for C3, at the out-of-range resolution 100000. -/
theorem C3_witness : 0 ≤ (0 : ℤ) ∧ (0 : ℤ) ≤ 32767 :=
  C3_hard_ceiling 100000 (AudioData.mono [1]) 0 (by with_unfolding_all decide)

/-- Claim C4, counterexample: resolution 0 satisfies `resolution ≤ 32768`,
yet the (unique) output value 0 does not lie in the empty closed range
[0, resolution - 1] = [0, -1]. -/
theorem C4_counterexample :
    quantizeData 0 (AudioData.mono [0]) = [0] ∧ ¬ ((0 : ℤ) ≤ (0 : ℤ) - 1) :=
  ⟨by with_unfolding_all decide, by decide⟩

/-- Claim C4, amended: for every resolution with 1 ≤ resolution ≤ 32768 and
every input, every quantized output value lies in [0, resolution - 1]. -/
theorem C4_range_amended (pwm_resolution : ℤ)
    (h1 : 1 ≤ pwm_resolution) (h2 : pwm_resolution ≤ 32768)
    (d : AudioData) (v : ℤ) (h : v ∈ quantizeData pwm_resolution d) :
    0 ≤ v ∧ v ≤ pwm_resolution - 1 := by
  unfold quantizeData at h
  obtain ⟨s, hs, rfl⟩ := List.mem_map.mp h
  exact quantizeSample_bounds h1 h2 (mem_normalizeData_abs_le_one hs)

/-- Witness for C4 at resolution 4096 on a full-scale sample. -/
theorem C4_witness : 0 ≤ (4095 : ℤ) ∧ (4095 : ℤ) ≤ 4096 - 1 :=
  C4_range_amended 4096 (by decide) (by decide) (AudioData.mono [1]) 4095
    (by with_unfolding_all decide)

/-- Claim C5, counterexample: at resolution 65537, silence maps to
`floor((0+1)/2*(resolution-1)) = 32768`, but the int16 cast wraps 32768 to
-32768 and the clip then yields 0, so the emitted value is not that floor. -/
theorem C5_counterexample :
    quantizeData 65537 (AudioData.mono [0]) = [0] ∧
      ⌊((0 : ℚ) + 1) / 2 * ((65537 : ℚ) - 1)⌋ ≠ (0 : ℤ) :=
  ⟨by with_unfolding_all decide, by with_unfolding_all decide⟩

/-- Claim C5, amended: for every silence input — any decoded audio (mono or
stereo) whose mono-collapsed amplitude sequence is all zeros — and every
resolution with 1 ≤ resolution ≤ 65536, normalization is skipped (no
division by zero) and every emitted value equals
`floor((0+1)/2*(resolution-1))` — an all-equal array at the midpoint
mapping of zero (2047 for resolution 4096). -/
theorem C5_silence_amended (pwm_resolution : ℤ)
    (h1 : 1 ≤ pwm_resolution) (h2 : pwm_resolution ≤ 65536)
    (d : AudioData) (hz : ∀ x ∈ collapseMono d, x = 0) :
    quantizeData pwm_resolution d =
      (collapseMono d).map
        (fun _ => ⌊((0 : ℚ) + 1) / 2 * ((pwm_resolution : ℚ) - 1)⌋) := by
  have hpeak : peakOf (collapseMono d) = 0 := peakOf_eq_zero hz
  have hnorm : normalizeData (collapseMono d) = collapseMono d := by
    unfold normalizeData
    rw [hpeak]
    norm_num
  unfold quantizeData
  rw [hnorm]
  apply List.map_congr_left
  intro x hx
  rw [hz x hx]
  exact quantizeSample_zero h1 h2

/-- Witness for C5 at resolution 4096 on two frames of stereo silence. -/
theorem C5_witness :
    quantizeData 4096 (AudioData.stereo [(0, 0), (0, 0)]) =
      (collapseMono (AudioData.stereo [(0, 0), (0, 0)])).map
        (fun _ => ⌊((0 : ℚ) + 1) / 2 * ((4096 : ℚ) - 1)⌋) :=
  C5_silence_amended 4096 (by decide) (by decide)
    (AudioData.stereo [(0, 0), (0, 0)]) (by with_unfolding_all decide)

/-- Claim C6: stereo input is collapsed to mono before normalization and
quantization by the per-frame arithmetic mean of the two channels, and the
hand-computed example L,R = (1,-1),(-1,1) collapses to [0, 0]. -/
theorem C6_stereo_mean :
    (∀ frames : List (ℚ × ℚ),
        collapseMono (AudioData.stereo frames) =
          frames.map (fun p => (p.1 + p.2) / 2)) ∧
      (∀ (pwm_resolution : ℤ) (frames : List (ℚ × ℚ)),
          quantizeData pwm_resolution (AudioData.stereo frames) =
            quantizeData pwm_resolution
              (AudioData.mono (frames.map (fun p => (p.1 + p.2) / 2)))) ∧
      collapseMono (AudioData.stereo [(1, -1), (-1, 1)]) = [0, 0] :=
  ⟨fun _ => rfl, fun _ _ => rfl, by with_unfolding_all decide⟩

/-- Claim C7: on success, the header declares `NUM_SAMPLES` equal to the
number of input files, the manifest has one entry per file with indices
exactly 0..N-1 in input order, and each entry's size equals the exact frame
count of that file's decoded, mono-collapsed audio. -/
theorem C7_manifest (files : List WavFile) (pwm_resolution : ℤ)
    (results : List (ManifestEntry × String))
    (h : process_files pwm_resolution files 0 = .ok results) :
    (∃ rest, convert_wavs_to_header files pwm_resolution =
        .ok (num_samples_line files.length ++ rest)) ∧
      results.length = files.length ∧
      results.map (fun r => r.1.index) = List.range files.length ∧
      ∀ i (hf : i < files.length) (hr : i < results.length),
        ∃ d, (files.get ⟨i, hf⟩).content = some d ∧
          (results.get ⟨i, hr⟩).1.size = (collapseMono d).length := by
  obtain ⟨hlen, hidx, hsz⟩ := process_files_ok_spec pwm_resolution files 0 results h
  refine ⟨?_, hlen, ?_, hsz⟩
  · refine ⟨struct_block
      ++ (("SampleData sample[NUM_SAMPLES] = \x7b\n"
          ++ String.intercalate "\n" (results.map (fun r => sample_definition r.1))
          ++ "\n\x7d;\n\n")
        ++ String.intercalate "\n" (results.map (fun r => r.2))), ?_⟩
    unfold convert_wavs_to_header
    rw [h]
  · rw [List.range_eq_range']
    exact hidx

/-- Concrete single-file batch used to instantiate C7. -/
def c7files : List WavFile := [⟨"a.wav", some (AudioData.mono [1, -1, 0])⟩]

/-- The loop results the conversion produces on `c7files` at resolution 4096. -/
def c7results : List (ManifestEntry × String) :=
  [(⟨0, "a", 3⟩, "const int16_t a[] PROGMEM = \x7b\n4095, 0, 2047\n\x7d;\n")]

/-- Witness for C7 on a concrete one-file batch. -/
theorem C7_witness :
    (∃ rest, convert_wavs_to_header c7files 4096 =
        .ok (num_samples_line c7files.length ++ rest)) ∧
      c7results.length = c7files.length ∧
      c7results.map (fun r => r.1.index) = List.range c7files.length ∧
      ∀ i (hf : i < c7files.length) (hr : i < c7results.length),
        ∃ d, (c7files.get ⟨i, hf⟩).content = some d ∧
          (c7results.get ⟨i, hr⟩).1.size = (collapseMono d).length :=
  C7_manifest c7files 4096 c7results (by with_unfolding_all rfl)

/-- Claim C8: the 3-sample mono input [-1, 0, 1] at resolution 4096
quantizes exactly to [0, 2047, 4095], all of which are at most 32767. -/
theorem C8_roundtrip :
    quantizeData 4096 (AudioData.mono [-1, 0, 1]) = [0, 2047, 4095] ∧
      ∀ v ∈ quantizeData 4096 (AudioData.mono [-1, 0, 1]), v ≤ 32767 := by
  with_unfolding_all decide

/-- Claim C9: if any file in the batch fails to decode, the whole conversion
fails with an error and produces no output text — no partial output and no
per-file skip-and-continue. -/
theorem C9_abort_on_decode_failure (files : List WavFile) (pwm_resolution : ℤ)
    (h : ∃ f ∈ files, f.content = none) :
    ∃ e, convert_wavs_to_header files pwm_resolution = .error e := by
  obtain ⟨e, he⟩ := process_files_error pwm_resolution files h 0
  exact ⟨e, by unfold convert_wavs_to_header; rw [he]⟩

/-- Witness for C9: a batch whose first file decodes and whose second fails
aborts with an error. -/
theorem C9_witness :
    ∃ e, convert_wavs_to_header
        [⟨"good.wav", some (AudioData.mono [1])⟩, ⟨"bad.wav", none⟩] 4096 =
      .error e :=
  C9_abort_on_decode_failure _ _ ⟨⟨"bad.wav", none⟩, by with_unfolding_all decide, rfl⟩

/-- Claim C10: the empty batch succeeds, and the generated text is exactly
the `NUM_SAMPLES 0` line, the struct definition, and an empty manifest array
literal (open brace line, blank line, closing line), with no data arrays. -/
theorem C10_empty_input (pwm_resolution : ℤ) :
    convert_wavs_to_header [] pwm_resolution =
      .ok ("#define NUM_SAMPLES 0\n\nstruct SampleData \x7b\n    const uint16_t index;\n    const int16_t* data;\n    const uint32_t size;\n    const char* name;\n\x7d;\n\nSampleData sample[NUM_SAMPLES] = \x7b\n\n\x7d;\n\n") := by
  with_unfolding_all rfl
